import Mathlib

/-!
Verification of the `api_clients` repository (Crossref and Scopus API
clients) against its natural-language specification.

The Python sources `crossref_client.py` and `scopus_client.py` are shallowly
embedded below.  JSON response bodies are modelled by the inductive `JSON`;
Python dictionaries appear as association lists; Python exceptions are
modelled with `Except PyErr`; string manipulation (`split`, `startswith`,
`in`, `join`) is modelled over `List Char` with `String` wrappers so that
the embedded functions operate on the same data the source does.
-/

set_option maxHeartbeats 1000000

namespace ApiClients

/-- Python exception classes that the embedded code can raise. -/
inductive PyErr where
  | valueError
  | keyError
  | typeError
  | attributeError
  | overflowError
deriving Repr, DecidableEq

/-- JSON values as decoded by `response.json()` / `yaml.safe_load`:
`null`, booleans, integers, strings, arrays and objects. -/
inductive JSON where
  | null
  | bool (b : Bool)
  | num (n : Int)
  | str (s : String)
  | arr (xs : List JSON)
  | obj (kvs : List (String × JSON))
deriving Repr

/-- A decoded top-level response body, declared `Dict[str, Any]` in the
source: an association list of string keys to JSON values. -/
abbrev JDict := List (String × JSON)

/-- Lookup in a Python dict: `k in d` / `d[k]` membership and access
(first binding wins; Python dicts have unique keys). -/
def jfind (d : JDict) (k : String) : Option JSON :=
  (d.find? (fun p => p.1 == k)).map (fun p => p.2)

/-- Python `d.get(k, default)` on an association list. -/
def jget (d : JDict) (k : String) (default : JSON) : JSON :=
  (jfind d k).getD default

/-- Python truthiness of a JSON value (`if x:`). -/
def JSON.truthy : JSON → Bool
  | .null => false
  | .bool b => b
  | .num n => n != 0
  | .str s => s != ""
  | .arr xs => !xs.isEmpty
  | .obj kvs => !kvs.isEmpty

/-- Python comparison `x == "lit"` between a JSON value and a string
literal: true exactly when `x` is that string (Python `==` across
types is `False`). -/
def JSON.eqStr : JSON → String → Bool
  | .str s, t => s == t
  | _, _ => false

/-- Python `x.get(k, default)` on an arbitrary value: raises
`AttributeError` unless `x` is a dict. -/
def JSON.pyGet : JSON → String → JSON → Except PyErr JSON
  | .obj kvs, k, default => .ok (jget kvs k default)
  | _, _, _ => .error .attributeError

/-- Python `x[k]` string subscription: `KeyError` on a dict without the
key, `TypeError` on non-dicts. -/
def JSON.pySubscript : JSON → String → Except PyErr JSON
  | .obj kvs, k =>
    match jfind kvs k with
    | some v => .ok v
    | none => .error .keyError
  | _, _ => .error .typeError

/-- Python `len(x)`: length of strings, lists and dicts; `TypeError`
otherwise. -/
def JSON.pyLen : JSON → Except PyErr Nat
  | .str s => .ok s.length
  | .arr xs => .ok xs.length
  | .obj kvs => .ok kvs.length
  | _ => .error .typeError

/-- Python `for x in v`: lists yield elements, strings yield one-character
strings, dicts yield their keys; other values raise `TypeError`. -/
def JSON.pyIterate : JSON → Except PyErr (List JSON)
  | .arr xs => .ok xs
  | .str s => .ok (s.data.map (fun c => .str (String.singleton c)))
  | .obj kvs => .ok (kvs.map (fun p => .str p.1))
  | _ => .error .typeError

mutual

/-- Python `repr` of a JSON value (used by `str()` on non-strings). -/
def JSON.pyRepr : JSON → String
  | .null => "None"
  | .bool true => "True"
  | .bool false => "False"
  | .num n => toString n
  | .str s => "\x27" ++ s ++ "\x27"
  | .arr xs => "[" ++ JSON.pyReprList xs ++ "]"
  | .obj kvs => "\x7b" ++ JSON.pyReprKVs kvs ++ "\x7d"

/-- Comma-separated reprs of list elements. -/
def JSON.pyReprList : List JSON → String
  | [] => ""
  | [x] => JSON.pyRepr x
  | x :: y :: xs => JSON.pyRepr x ++ ", " ++ JSON.pyReprList (y :: xs)

/-- Comma-separated reprs of dict entries. -/
def JSON.pyReprKVs : List (String × JSON) → String
  | [] => ""
  | [(k, v)] => "\x27" ++ k ++ "\x27: " ++ JSON.pyRepr v
  | (k, v) :: e :: xs =>
    "\x27" ++ k ++ "\x27: " ++ JSON.pyRepr v ++ ", " ++ JSON.pyReprKVs (e :: xs)

end

/-- Python `str(x)` applied to a JSON value (f-string interpolation). -/
def JSON.pyStr : JSON → String
  | .str s => s
  | j => j.pyRepr

/-- Numeric value of a digit string. -/
def digitsToNat (l : List Char) : Nat :=
  l.foldl (fun acc c => acc * 10 + (c.toNat - 48)) 0

/-- The (ASCII) whitespace characters `int(str)` strips from both ends. -/
def pyIsSpace (c : Char) : Bool :=
  c = ' ' || c = '\t' || c = '\n' || c = '\r' || c = '\x0b' || c = '\x0c'

/-- Tail of a Python integer-literal digit run: single underscores are
allowed as separators between digits only (no leading, trailing or
doubled underscore). -/
def pyDigitsTail : List Char → Bool
  | [] => true
  | '_' :: rest =>
    match rest with
    | [] => false
    | c :: rest2 => c.isDigit && pyDigitsTail rest2
  | c :: rest => c.isDigit && pyDigitsTail rest

/-- A valid Python integer-literal digit run: at least one digit, with
optional single underscore separators between digits. -/
def pyDigits : List Char → Bool
  | [] => false
  | c :: rest => c.isDigit && pyDigitsTail rest

/-- Value of a digit run once underscore separators are removed. -/
def pyDigitsValue (l : List Char) : Nat :=
  digitsToNat (l.filter (fun c => !(c = '_')))

/-- Python `int(s)` for a string: optional surrounding whitespace, optional
sign, then decimal digits with optional underscore separators; `none`
models `ValueError`. -/
def pyParseInt (s : String) : Option Int :=
  let l := (s.data.dropWhile pyIsSpace).reverse.dropWhile pyIsSpace |>.reverse
  match l with
  | '-' :: rest => if pyDigits rest then some (-(pyDigitsValue rest : Int)) else none
  | '+' :: rest => if pyDigits rest then some ((pyDigitsValue rest : Int)) else none
  | _ => if pyDigits l then some ((pyDigitsValue l : Int)) else none

/-- Python `int(x)` on a JSON value: ints pass through, booleans become
0/1, strings are parsed (`ValueError` on failure), everything else raises
`TypeError`. -/
def pyToInt : JSON → Except PyErr Int
  | .num n => .ok n
  | .bool b => .ok (if b then 1 else 0)
  | .str s =>
    match pyParseInt s with
    | some n => .ok n
    | none => .error .valueError
  | _ => .error .typeError

/-! ### Python string operations, modelled over `List Char` -/

/-- Python substring test `sub in s` on character lists. -/
def listContainsSub (sub : List Char) : List Char → Bool
  | [] => sub.isEmpty
  | c :: t => sub.isPrefixOf (c :: t) || listContainsSub sub t

/-- Python `s.split(sep)` for a single-character separator (the source
only splits on `'&'`), on character lists: split at every occurrence. -/
def splitChar (sep : Char) : List Char → List (List Char)
  | [] => [[]]
  | c :: t =>
    if c = sep then
      [] :: splitChar sep t
    else
      match splitChar sep t with
      | [] => [[c]]
      | p :: ps => (c :: p) :: ps

/-- Python `s.split(sep, 1)`: split at the first occurrence only;
`none` when the separator does not occur. -/
def splitSub1 (sep : List Char) : List Char → Option (List Char × List Char)
  | [] => none
  | c :: t =>
    if sep ≠ [] ∧ sep.isPrefixOf (c :: t) then
      some ([], List.drop sep.length (c :: t))
    else
      (splitSub1 sep t).map (fun p => (c :: p.1, p.2))

/-- Join character lists with a separator (Python `sep.join`). -/
def joinSep (sep : List Char) : List (List Char) → List Char
  | [] => []
  | [x] => x
  | x :: y :: xs => x ++ sep ++ joinSep sep (y :: xs)

/-- Python `sub in s` on strings. -/
def strContainsSub (s sub : String) : Bool :=
  listContainsSub sub.data s.data

/-- Python `c in s` for a single-character needle (`'@' in email`). -/
def strContainsChar (s : String) (c : Char) : Bool :=
  s.data.contains c

/-- Python `s.split(sep)` on strings, single-character separator. -/
def strSplitAll (s : String) (sep : Char) : List String :=
  (splitChar sep s.data).map String.mk

/-- Python `base, rest = s.split(sep, 1)`: `none` models the
`ValueError` raised when there is nothing to unpack into two names. -/
def strSplitOnce (s sep : String) : Option (String × String) :=
  (splitSub1 sep.data s.data).map (fun p => (String.mk p.1, String.mk p.2))

/-- Python `sep.join(parts)` on strings. -/
def strJoin (sep : String) (parts : List String) : String :=
  String.mk (joinSep sep.data (parts.map String.data))

/-- Python `s.startswith(pre)` on strings. -/
def strStartsWith (s pre : String) : Bool :=
  pre.data.isPrefixOf s.data

/-- The page dict produced by `_parse_page_response`. -/
structure ParsedPage where
  page : Int
  total_results : JSON
  results : JSON
  error : Option JSON
  cursor : Option JSON
deriving Repr

/-! ### CrossrefSearchClient (crossref_client.py) -/

/-- `CrossrefSearchClient._parse_page_response` (crossref_client.py,
lines 117-149). -/
def crossref_parse_page_response (response_data : JDict) (page : Int) :
    Except PyErr ParsedPage :=
  -- if 'status' in response_data and response_data['status'] != 'ok'
  if (jfind response_data "status").elim false (fun s => !s.eqStr "ok") then
    .ok ⟨page, .num 0, .null,
         some (jget response_data "message-type" (.str "unknown_error")), none⟩
  else if (jfind response_data "message").isNone then
    .ok ⟨page, .num 0, .null, some (.str "no_message"), none⟩
  else do
    let message := jget response_data "message" .null
    let total_results ← message.pyGet "total-results" (.num 0)
    let items ← message.pyGet "items" (.arr [])
    let cursor ← message.pyGet "next-cursor" .null
    .ok ⟨page, total_results, items, none, some cursor⟩

/-- `CrossrefSearchClient._get_next_page_url` (crossref_client.py,
lines 151-176): cursor-based next-page URL rewrite. -/
def crossref_get_next_page_url (response_data : JDict) (current_url : String) :
    Except PyErr (Option String) :=
  match jfind response_data "message" with
  | none => .ok none
  | some message => do
    let next_cursor ← message.pyGet "next-cursor" .null
    let items ← message.pyGet "items" (.arr [])
    -- if not items or len(items) == 0: return None
    if !items.truthy then
      .ok none
    else do
      let n ← items.pyLen
      if n == 0 then
        .ok none
      else if next_cursor.truthy then do
        let url ←
          if strContainsSub current_url "cursor=" then
            match strSplitOnce current_url "?" with
            | none => .error .valueError   -- unpacking `split('?', 1)` failed
            | some (base, params) =>
              let param_parts := strSplitAll params '&'
              let param_parts := param_parts.filter
                (fun p => !strStartsWith p "cursor=")
              pure (base ++ "?" ++ strJoin "&" param_parts)
          else
            pure current_url
        .ok (some (url ++ "&cursor=" ++ next_cursor.pyStr))
      else
        .ok none

/-! ### URL construction (`_build_search_url`) -/

/-- String-valued parameter mappings, as passed to `urlencode`. -/
abbrev Params := List (String × String)

/-- Lookup in a string-parameter dict. -/
def dictFind (d : Params) (k : String) : Option String :=
  (d.find? (fun p => p.1 == k)).map (fun p => p.2)

/-- Python `k in d` for a string-parameter dict. -/
def dictHas (d : Params) (k : String) : Bool :=
  (dictFind d k).isSome

/-- Python `d[k] = v`: replace the value in place if the key exists,
append the binding otherwise. -/
def dictSet (d : Params) (k v : String) : Params :=
  if dictHas d k then
    d.map (fun p => if p.1 == k then (k, v) else p)
  else
    d ++ [(k, v)]

/-- Python `{**a, **b}`: `a`'s bindings in order with values overridden by
`b`, followed by `b`'s new keys in order. -/
def dictMerge (a b : Params) : Params :=
  a.map (fun p =>
    match b.find? (fun q => q.1 == p.1) with
    | some q => (p.1, q.2)
    | none => p)
  ++ b.filter (fun q => !(a.any (fun p => p.1 == q.1)))

/-- UTF-8 bytes of a character, as numbers 0-255. -/
def utf8Bytes (c : Char) : List Nat :=
  let n := c.toNat
  if n < 0x80 then [n]
  else if n < 0x800 then
    [0xC0 ||| (n >>> 6), 0x80 ||| (n &&& 0x3F)]
  else if n < 0x10000 then
    [0xE0 ||| (n >>> 12), 0x80 ||| ((n >>> 6) &&& 0x3F), 0x80 ||| (n &&& 0x3F)]
  else
    [0xF0 ||| (n >>> 18), 0x80 ||| ((n >>> 12) &&& 0x3F),
     0x80 ||| ((n >>> 6) &&& 0x3F), 0x80 ||| (n &&& 0x3F)]

/-- Bytes never percent-encoded by `urllib.parse.quote`: ASCII letters,
digits, and `_.-~`. -/
def safeByte (b : Nat) : Bool :=
  (65 ≤ b && b ≤ 90) || (97 ≤ b && b ≤ 122) || (48 ≤ b && b ≤ 57) ||
  (b == 95) || (b == 46) || (b == 45) || (b == 126)

/-- Uppercase hexadecimal digit. -/
def hexDigitChar (n : Nat) : Char :=
  if n < 10 then Char.ofNat (48 + n) else Char.ofNat (55 + n)

/-- Percent-encoding of one UTF-8 byte under `quote_plus`: safe bytes pass
through, a space becomes `+`, everything else becomes `%XX`. -/
def quoteByte (b : Nat) : List Char :=
  if b == 32 then ['+']
  else if safeByte b then [Char.ofNat b]
  else ['%', hexDigitChar (b / 16), hexDigitChar (b % 16)]

/-- `urllib.parse.quote_plus` on a string. -/
def quotePlus (s : String) : String :=
  String.mk ((s.data.flatMap utf8Bytes).flatMap quoteByte)

/-- `urllib.parse.urlencode` over a string-valued mapping. -/
def urlencodePairs (ps : Params) : String :=
  strJoin "&" (ps.map (fun p => quotePlus p.1 ++ "=" ++ quotePlus p.2))

/-- The default parameters a `CrossrefConfig` ends up with
(`{'rows': rows_per_page}`, `rows_per_page = 100`, stringified by
`urlencode`). -/
def crossrefDefaultParams : Params := [("rows", "100")]

/-- The parameter dict assembled by `CrossrefSearchClient._build_search_url`
(crossref_client.py, lines 90-115): merge defaults and caller params, set
`query`, add `mailto` when configured and absent, and add the `cursor=*`
sentinel when no cursor is present. -/
def crossref_url_params (mailto : String) (defaults : Params)
    (query : String) (params : Params) : Params :=
  let up := dictMerge defaults params
  let up := dictSet up "query" query
  let up := if mailto != "" && !dictHas up "mailto"
            then dictSet up "mailto" mailto else up
  if !dictHas up "cursor" then dictSet up "cursor" "*" else up

/-- `CrossrefSearchClient._build_search_url`: the final URL string. -/
def crossref_build_search_url (mailto base_url : String) (defaults : Params)
    (query : String) (params : Params) : String :=
  base_url ++ "?" ++ urlencodePairs (crossref_url_params mailto defaults query params)

/-! ### ScopusSearchClient (scopus_client.py) -/

/-- `ScopusSearchClient._parse_page_response` (scopus_client.py,
lines 90-119). -/
def scopus_parse_page_response (response_data : JDict) (page : Int) :
    Except PyErr ParsedPage :=
  match jfind response_data "error" with
  | some e => .ok ⟨page, .num 0, .null, some e, none⟩
  | none =>
    match jfind response_data "search-results" with
    | none => .ok ⟨page, .num 0, .null, some (.str "no_search_results"), none⟩
    | some search_results => do
      let traw ← search_results.pyGet "opensearch:totalResults" (.num 0)
      let total_results ← pyToInt traw
      let entries ← search_results.pyGet "entry" (.arr [])
      -- Scopus uses links for pagination, not cursor: 'cursor': None
      .ok ⟨page, .num total_results, entries, none, some .null⟩

/-- One step of the list comprehension
`[link for link in links if link.get('@ref') == 'next']`. -/
def scopus_collect_next_links : List JSON → Except PyErr (List JSON)
  | [] => .ok []
  | l :: ls => do
    let r ← l.pyGet "@ref" .null
    let rest ← scopus_collect_next_links ls
    pure (if r.eqStr "next" then l :: rest else rest)

/-- `ScopusSearchClient._get_next_page_url` (scopus_client.py,
lines 121-132): follow the provider-supplied `next` link. -/
def scopus_get_next_page_url (response_data : JDict) (_current_url : String) :
    Except PyErr (Option JSON) :=
  match jfind response_data "search-results" with
  | none => .ok none
  | some search_results => do
    let links ← search_results.pyGet "link" (.arr [])
    let ls ← links.pyIterate
    let next_links ← scopus_collect_next_links ls
    match next_links with
    | [] => .ok none
    | l0 :: _ => do
      let href ← l0.pySubscript "@href"
      .ok (some href)

/-! ### Session setup (`_setup_session`) -/

/-- HTTP headers as a string mapping. -/
abbrev Headers := List (String × String)

/-- The error message raised by `ScopusSearchClient._setup_session` when
the API key is absent. -/
def scopusKeyErrorMessage : String :=
  "Scopus API key is required. Set it in the config or load from " ++
  "scopus.yaml file. Get your API key from: https://dev.elsevier.com/"

/-- `ScopusSearchClient._setup_session` (scopus_client.py, lines 71-82):
raises a `ValueError` with a descriptive message when the configured API
key is empty, installs the key header otherwise. -/
def scopus_setup_session (api_key : String) : Except String Headers :=
  if api_key = "" then
    .error scopusKeyErrorMessage
  else
    .ok [("Accept", "application/json"), ("X-ELS-APIKey", api_key)]

/-- `CrossrefSearchClient._setup_session` (crossref_client.py,
lines 74-88): never raises; returns the installed headers and whether the
public-pool warning was logged. -/
def crossref_setup_session (mailto : String) : Except String (Headers × Bool) :=
  let user_agent :=
    "api_clients/1.0" ++ (if mailto != "" then " (mailto:" ++ mailto ++ ")" else "")
  .ok ([("User-Agent", user_agent), ("Accept", "application/json")],
       mailto = "")

/-! ### Rate limiters (`update_from_headers`)

`RateLimiter` itself lives in `base_client.py`, which is not part of the
given sources.  Modelled from the spec: RateLimiterState carries the
provider-reported quota fields (limit, remaining, reset time), available
only once a response has reported them, hence `Option` fields that start
out unset. -/

/-- Truthiness of the `mailto` value after `_load_email`
(`None` or a string). -/
def mailtoTruthy : Option String → Bool
  | none => false
  | some s => s != ""

/-- The `default_rate` chosen by `CrossrefSearchFetcher.__init__`
(crossref_client.py, lines 218-223): 10.0 for the polite pool, 1.0 for the
public pool. -/
def crossref_fetcher_default_rate (mailto : Option String) : ℚ :=
  if mailtoTruthy mailto then 10 else 1

/-- The `requests_per_second` the fetcher passes to `CrossrefConfig`:
`kwargs.get('requests_per_second', default_rate)`. -/
def crossref_fetcher_rate (mailto : Option String) (rps_kwarg : Option ℚ) : ℚ :=
  rps_kwarg.getD (crossref_fetcher_default_rate mailto)

/-! ### CrossrefSearchFetcher._load_email (crossref_client.py, 246-288)

The function probes two candidate YAML files.  A probed path is either
absent, unreadable/unparsable (`open`/`yaml.safe_load` raised, caught by
the blanket `except Exception`), or parses to a YSON-like value. -/

/-- Outcome of probing one candidate `crossref.yaml` path. -/
inductive FileStatus where
  | absent
  | readError
  | parsed (v : JSON)

/-- What one loop iteration of `_load_email` does with a probed path:
return from the function, or fall through to the next path. -/
inductive LoadStep where
  | ret (r : Option String)
  | next
deriving Repr, DecidableEq

/-- The value of `email = key_data.get('mailto') or key_data.get('email')`
inside `_load_email` (Python `or` takes the first truthy operand). -/
def crossref_email_field (kvs : List (String × JSON)) : JSON :=
  if (jget kvs "mailto" .null).truthy then jget kvs "mailto" .null
  else jget kvs "email" .null

/-- One iteration of the `for path in key_paths` loop of `_load_email`:
empty file returns `None`; a dict is searched for a `mailto`/`email`
field; a string field containing `@` is returned; an explicitly
empty/absent field returns `None`; anything else (including exceptions
from non-dict YAML, caught by `except Exception`) falls through. -/
def crossref_load_email_step : FileStatus → LoadStep
  | .absent => .next
  | .readError => .next                      -- caught and logged
  | .parsed v =>
    match v with
    | .null => .ret none                     -- empty file
    | .obj kvs =>
      match crossref_email_field kvs with
      | .str s =>
        if s != "" && strContainsChar s '@' then .ret (some s)
        else if s = "" then .ret none        -- email == ''
        else .next                           -- string without '@'
      | .null => .ret none                   -- email is None
      | _ => .next                           -- truthy non-string, falls through
    | _ => .next                             -- .get raised, caught

/-- `CrossrefSearchFetcher._load_email` over the two candidate paths
(`./crossref.yaml`, then `<api_key_dir>/crossref.yaml`); returns `None`
when the loop exhausts both. -/
def crossref_load_email (f1 f2 : FileStatus) : Option String :=
  match crossref_load_email_step f1 with
  | .ret r => r
  | .next =>
    match crossref_load_email_step f2 with
    | .ret r => r
    | .next => none

/-! ### CrossrefSearchFetcher.search_with_filters (crossref_client.py,
319-359) -/

/-- A filter value as passed in the `filters` mapping. -/
inductive FilterVal where
  | boolean (b : Bool)
  | string (s : String)
  | int (n : Int)
deriving Repr, DecidableEq

/-- How `search_with_filters` renders one filter value: booleans via
`str(value).lower()`, others via the f-string. -/
def renderFilterVal : FilterVal → String
  | .boolean true => "true"
  | .boolean false => "false"
  | .string s => s
  | .int n => toString n

/-- The comma-joined `filter` parameter value built from a filters
mapping. -/
def crossref_filter_param (filters : List (String × FilterVal)) : String :=
  String.intercalate ","
    (filters.map (fun p => p.1 ++ ":" ++ renderFilterVal p.2))

/-- The params dict `search_with_filters` forwards to `fetch`:
`kwargs.copy()` with `params['filter']` overwritten by the encoded
filters whenever the filters mapping is non-empty. -/
def crossref_search_with_filters_params
    (filters : List (String × FilterVal)) (kwargs : Params) : Params :=
  if filters.isEmpty then kwargs
  else dictSet kwargs "filter" (crossref_filter_param filters)

/-! ### ScopusSearchFetcher.clean_max_hits (scopus_client.py, 299-315)

`LocalCache` lives in `local_cache.py`, which is not among the sources.
Modelled from the spec: the cache is a query-keyed store supporting
`list_queries` (enumerate all keys), `get` (read) and `delete`; an entry
holds rows shaped like the output contract (payload-or-null,
declared-total, ...). -/

/-- One cached row, restricted to the columns `clean_max_hits` reads:
`data` (`none` = null payload, `data['data'].isna()`) and `num_hits`. -/
structure CacheRow where
  data : Option JSON
  num_hits : Int
deriving Repr

/-- Modelled from the spec: the cache contents as a query-keyed map. -/
abbrev Cache := List (String × List CacheRow)

/-- The row predicate of `clean_max_hits`:
`data['data'].isna() & (data['num_hits'] > max_results_per_query)`. -/
def rowExceedsCap (cap : Int) (r : CacheRow) : Bool :=
  r.data.isNone && cap < r.num_hits

/-- Whether a cache entry has at least one problematic row
(`len(problematic) > 0`). -/
def entryExceedsCap (cap : Int) (rows : List CacheRow) : Bool :=
  rows.any (rowExceedsCap cap)

/-- Modelled from the spec: `cache.get(query)`. -/
def cacheGet (c : Cache) (q : String) : Option (List CacheRow) :=
  (c.find? (fun e => e.1 == q)).map (fun e => e.2)

/-- Modelled from the spec: `cache.delete(query)`. -/
def cacheDelete (c : Cache) (q : String) : Cache :=
  c.filter (fun e => !(e.1 == q))

/-- One iteration of the `for item in self.cache.list_queries()` loop in
`ScopusSearchFetcher.clean_max_hits`. -/
def clean_max_hits_step (cap : Int) (c : Cache) (q : String) : Cache :=
  match cacheGet c q with
  | none => c                                    -- data is None
  | some rows => if entryExceedsCap cap rows then cacheDelete c q else c

/-- `ScopusSearchFetcher.clean_max_hits`: iterate over the snapshot of all
cached query keys, deleting every entry with a problematic row;
`cap` is `self.client.config.max_results_per_query`. -/
def scopus_clean_max_hits (cap : Int) (c : Cache) : Cache :=
  (c.map (fun e => e.1)).foldl (clean_max_hits_step cap) c

/-- The cursor parameters of a URL: the `&`-separated components of its
query string (the part after the first `?`) that start with `cursor=`.
Used to state what "exactly one cursor parameter" means. -/
def urlCursorParams (url : String) : List String :=
  match strSplitOnce url "?" with
  | none => []
  | some (_, q) => (strSplitAll q '&').filter (fun p => strStartsWith p "cursor=")

/-- Whether a link object is the `next` link
(`link.get('@ref') == 'next'`). -/
def isNextLink : JSON → Bool
  | .obj kvs => (jget kvs "@ref" .null).eqStr "next"
  | _ => false

/-- The email a probed config file yields, per the claim: the
`mailto`-or-`email` field when it is a non-empty string containing `@`,
nothing otherwise. -/
def emailFieldOf : FileStatus → Option String
  | .parsed (.obj kvs) =>
    match crossref_email_field kvs with
    | .str s => if s != "" && strContainsChar s '@' then some s else none
    | _ => none
  | _ => none

/-! ### Lemmas about the split/join character-list operations -/

theorem splitChar_nil (sep : Char) : splitChar sep [] = [[]] := rfl

theorem splitChar_ne_nil (sep : Char) (l : List Char) : splitChar sep l ≠ [] := by
  cases l with
  | nil => simp [splitChar]
  | cons c t =>
    simp only [splitChar]
    split
    · simp
    · split <;> simp

theorem splitChar_cons_pos (c : Char) (t : List Char) :
    splitChar c (c :: t) = [] :: splitChar c t := by
  simp [splitChar]

theorem splitChar_cons_neg {c d : Char} {t : List Char} {p : List Char}
    {ps : List (List Char)} (h : ¬ d = c) (ht : splitChar c t = p :: ps) :
    splitChar c (d :: t) = (d :: p) :: ps := by
  simp only [splitChar, if_neg h]
  rw [ht]

theorem splitChar_append (c : Char) (a b : List Char) :
    splitChar c (a ++ c :: b) = splitChar c a ++ splitChar c b := by
  induction a with
  | nil =>
    simp only [List.nil_append, splitChar_cons_pos, splitChar_nil]
    rfl
  | cons d a ih =>
    by_cases hd : d = c
    · subst hd
      rw [List.cons_append, splitChar_cons_pos, splitChar_cons_pos, ih]
      rfl
    · obtain ⟨p, ps, hps⟩ := List.exists_cons_of_ne_nil (splitChar_ne_nil c a)
      have heq : splitChar c (a ++ c :: b) = p :: (ps ++ splitChar c b) := by
        rw [ih, hps]; rfl
      rw [List.cons_append, splitChar_cons_neg hd heq, splitChar_cons_neg hd hps]
      rfl

theorem splitChar_single {c : Char} {l : List Char} (h : c ∉ l) :
    splitChar c l = [l] := by
  induction l with
  | nil => rfl
  | cons d t ih =>
    have hd : ¬ d = c := by
      intro e; exact h (e ▸ List.mem_cons_self d t)
    have ht := ih (fun m => h (List.mem_cons_of_mem d m))
    rw [splitChar_cons_neg hd ht]

theorem splitChar_nomem (c : Char) (l : List Char) :
    ∀ p ∈ splitChar c l, c ∉ p := by
  induction l with
  | nil =>
    intro p hp
    simp [splitChar] at hp
    simp [hp]
  | cons d t ih =>
    by_cases hd : d = c
    · subst hd
      rw [splitChar_cons_pos]
      intro p hp
      rcases List.mem_cons.1 hp with h | h
      · simp [h]
      · exact ih p h
    · obtain ⟨q, qs, hqs⟩ := List.exists_cons_of_ne_nil (splitChar_ne_nil c t)
      rw [splitChar_cons_neg hd hqs]
      intro p hp
      rcases List.mem_cons.1 hp with h | h
      · subst h
        intro hmem
        rcases List.mem_cons.1 hmem with h2 | h2
        · exact hd h2.symm
        · exact ih q (hqs ▸ List.mem_cons_self q qs) h2
      · exact ih p (hqs ▸ List.mem_cons_of_mem q h)

theorem joinSep_splitChar (c : Char) (l : List Char) :
    joinSep [c] (splitChar c l) = l := by
  induction l with
  | nil => simp [splitChar, joinSep]
  | cons d t ih =>
    by_cases hd : d = c
    · rw [hd]
      rw [splitChar_cons_pos]
      obtain ⟨p, ps, hps⟩ := List.exists_cons_of_ne_nil (splitChar_ne_nil c t)
      rw [hps]
      rw [hps] at ih
      show [] ++ [c] ++ joinSep [c] (p :: ps) = c :: t
      rw [List.nil_append, ih]
      rfl
    · obtain ⟨p, ps, hps⟩ := List.exists_cons_of_ne_nil (splitChar_ne_nil c t)
      rw [splitChar_cons_neg hd hps]
      rw [hps] at ih
      cases ps with
      | nil =>
        show d :: p = d :: t
        rw [show joinSep [c] [p] = p from rfl] at ih
        rw [ih]
      | cons r rs =>
        show (d :: p) ++ [c] ++ joinSep [c] (r :: rs) = d :: t
        have : p ++ [c] ++ joinSep [c] (r :: rs) = t := ih
        rw [List.cons_append, List.cons_append, this]

theorem part_of_joinSep {sep : List Char} {ps : List (List Char)}
    {p : List Char} (hp : p ∈ ps) : p <:+: joinSep sep ps := by
  induction ps with
  | nil => cases hp
  | cons x xs ih =>
    cases xs with
    | nil =>
      rcases List.mem_cons.1 hp with h | h
      · subst h; exact List.infix_refl p
      · cases h
    | cons y ys =>
      rcases List.mem_cons.1 hp with h | h
      · subst h
        show p <:+: p ++ sep ++ joinSep sep (y :: ys)
        exact ((List.prefix_append p sep).trans
          (List.prefix_append (p ++ sep) (joinSep sep (y :: ys)))).isInfix
      · have hin := ih h
        show p <:+: x ++ sep ++ joinSep sep (y :: ys)
        obtain ⟨s, t, hst⟩ := hin
        exact ⟨x ++ sep ++ s, t, by rw [← hst]; simp⟩

theorem part_of_splitChar {c : Char} {l p : List Char}
    (hp : p ∈ splitChar c l) : p <:+: l := by
  have := @part_of_joinSep [c] _ _ hp
  rwa [joinSep_splitChar] at this

theorem splitChar_joinSep {c : Char} {ps : List (List Char)}
    (hne : ps ≠ []) (hmem : ∀ p ∈ ps, c ∉ p) :
    splitChar c (joinSep [c] ps) = ps := by
  induction ps with
  | nil => exact absurd rfl hne
  | cons x xs ih =>
    cases xs with
    | nil => exact splitChar_single (hmem x (List.mem_cons_self x []))
    | cons y ys =>
      show splitChar c (x ++ [c] ++ joinSep [c] (y :: ys)) = x :: y :: ys
      have hx : c ∉ x := hmem x (List.mem_cons_self x (y :: ys))
      have hrest : ∀ p ∈ y :: ys, c ∉ p :=
        fun p hp => hmem p (List.mem_cons_of_mem x hp)
      rw [List.append_assoc, List.singleton_append, splitChar_append,
        splitChar_single hx, ih (by simp) hrest]
      rfl

theorem listContainsSub_iff {sub l : List Char} :
    listContainsSub sub l = true ↔ sub <:+: l := by
  induction l with
  | nil =>
    simp [listContainsSub, List.isEmpty_iff]
  | cons c t ih =>
    simp only [listContainsSub, Bool.or_eq_true, List.isPrefixOf_iff_prefix, ih]
    rw [List.infix_cons_iff]

theorem splitSub1_eq {sep l x y : List Char}
    (h : splitSub1 sep l = some (x, y)) : l = x ++ sep ++ y := by
  induction l generalizing x y with
  | nil => simp [splitSub1] at h
  | cons c t ih =>
    rw [splitSub1] at h
    split at h
    · rename_i hcond
      have hpre : sep ++ List.drop sep.length (c :: t) = c :: t :=
        List.prefix_iff_eq_append.1 (List.isPrefixOf_iff_prefix.1 hcond.2)
      have hx : x = [] := by
        have := congrArg (fun o => Option.map Prod.fst o) h
        simpa using this.symm
      have hy : y = List.drop sep.length (c :: t) := by
        have := congrArg (fun o => Option.map Prod.snd o) h
        simpa using this.symm
      subst hx; subst hy
      rw [List.nil_append, hpre]
    · rename_i hcond
      rcases ho : splitSub1 sep t with _ | ⟨a, b⟩
      · rw [ho] at h; simp at h
      · rw [ho] at h
        simp only [Option.map_some'] at h
        have hx : x = c :: a := by
          have := congrArg (fun o => Option.map Prod.fst o) h
          simpa using this.symm
        have hy : y = b := by
          have := congrArg (fun o => Option.map Prod.snd o) h
          simpa using this.symm
        subst hx; subst hy
        rw [ih ho]
        rfl

theorem splitSub1_nomem {c : Char} {l x y : List Char}
    (h : splitSub1 [c] l = some (x, y)) : c ∉ x := by
  induction l generalizing x y with
  | nil => simp [splitSub1] at h
  | cons d t ih =>
    rw [splitSub1] at h
    split at h
    · have hx : x = [] := by
        have := congrArg (fun o => Option.map Prod.fst o) h
        simpa using this.symm
      simp [hx]
    · rename_i hcond
      have hd : ¬ d = c := by
        intro e
        exact hcond ⟨by simp, by simp [List.isPrefixOf, e]⟩
      rcases ho : splitSub1 [c] t with _ | ⟨a, b⟩
      · rw [ho] at h; simp at h
      · rw [ho] at h
        simp only [Option.map_some'] at h
        have hx : x = d :: a := by
          have := congrArg (fun o => Option.map Prod.fst o) h
          simpa using this.symm
        subst hx
        intro hmem
        rcases List.mem_cons.1 hmem with h2 | h2
        · exact hd h2.symm
        · exact ih ho h2

theorem splitSub1_append {c : Char} {x : List Char} (y : List Char)
    (h : c ∉ x) : splitSub1 [c] (x ++ c :: y) = some (x, y) := by
  induction x with
  | nil =>
    rw [List.nil_append, splitSub1]
    rw [if_pos ⟨by simp, by simp [List.isPrefixOf]⟩]
    simp
  | cons d x2 ih =>
    have hd : ¬ d = c := by
      intro e; exact h (e ▸ List.mem_cons_self d x2)
    have hx2 : c ∉ x2 := fun m => h (List.mem_cons_of_mem d m)
    rw [List.cons_append, splitSub1]
    rw [if_neg]
    · rw [ih hx2]; rfl
    · intro hcontra
      have := hcontra.2
      simp [List.isPrefixOf] at this
      exact hd this.symm

/-! ### Support lemmas for the cursor-rewrite analysis -/

theorem string_mk_data (s : String) : String.mk s.data = s := by
  cases s; rfl

theorem urlCursorParams_ne_nil_elim (url : String)
    (h : urlCursorParams url ≠ []) :
    ∃ b q, strSplitOnce url "?" = some (b, q) ∧
      ∃ part ∈ strSplitAll q '&', strStartsWith part "cursor=" = true := by
  rcases hsp : strSplitOnce url "?" with _ | ⟨b, q⟩
  · rw [urlCursorParams, hsp] at h
    exact absurd rfl h
  · refine ⟨b, q, rfl, ?_⟩
    rw [urlCursorParams, hsp] at h
    by_contra hall
    push_neg at hall
    apply h
    refine List.filter_eq_nil_iff.2 ?_
    intro p hp
    intro hcontra
    exact hall p hp hcontra

theorem contains_of_cursor_param {url b q part : String}
    (hsp : strSplitOnce url "?" = some (b, q))
    (hmem : part ∈ strSplitAll q '&')
    (hpre : strStartsWith part "cursor=" = true) :
    strContainsSub url "cursor=" = true := by
  obtain ⟨⟨x, y⟩, h1, h2⟩ := Option.map_eq_some'.1 hsp
  have hqy : q.data = y := by
    have := congrArg Prod.snd h2
    simp at this
    rw [← this]
  have hurl : url.data = x ++ ['?'] ++ y := splitSub1_eq h1
  obtain ⟨pd, hpd, hpmk⟩ := List.mem_map.1 hmem
  have hpdata : part.data = pd := by rw [← hpmk]
  rw [strContainsSub, listContainsSub_iff]
  have hp1 : ("cursor=" : String).data <+: pd := by
    rw [← hpdata]
    exact List.isPrefixOf_iff_prefix.1 hpre
  rw [hqy] at hpd
  have hp2 : pd <:+: q.data := by
    rw [hqy]; exact part_of_splitChar hpd
  have hp3 : y <:+ url.data := ⟨x ++ ['?'], hurl.symm⟩
  exact (hp1.isInfix.trans hp2).trans (hqy ▸ hp3.isInfix)

theorem map_mk_data (l : List String) : (l.map String.data).map String.mk = l := by
  rw [List.map_map]
  have : String.mk ∘ String.data = id := funext string_mk_data
  rw [this, List.map_id]

theorem urlCursorParams_rebuilt (b token : String) (kept : List String)
    (hq : '?' ∉ b.data)
    (htok : '&' ∉ token.data)
    (hkdata : ∀ p ∈ kept, '&' ∉ p.data)
    (hknp : ∀ p ∈ kept, strStartsWith p "cursor=" = false) :
    urlCursorParams ((b ++ "?" ++ strJoin "&" kept) ++ "&cursor=" ++ token)
      = ["cursor=" ++ token] := by
  obtain ⟨tl⟩ := token
  have hctok : ('&' : Char) ∉ ("cursor=" : String).data ++ tl := by
    intro hmem
    rcases List.mem_append.1 hmem with hmem | hmem
    · revert hmem; decide
    · exact htok hmem
  have hdata : ((b ++ "?" ++ strJoin "&" kept) ++ "&cursor=" ++ String.mk tl).data
      = b.data ++ '?' :: (joinSep ['&'] (kept.map String.data) ++
          '&' :: (("cursor=" : String).data ++ tl)) := by
    simp only [String.data_append, List.append_assoc]
    rfl
  have hsplit1 : splitSub1 ['?']
      (((b ++ "?" ++ strJoin "&" kept) ++ "&cursor=" ++ String.mk tl).data)
      = some (b.data, joinSep ['&'] (kept.map String.data) ++
          '&' :: (("cursor=" : String).data ++ tl)) := by
    rw [hdata]
    exact splitSub1_append _ hq
  have hsponce : strSplitOnce ((b ++ "?" ++ strJoin "&" kept) ++ "&cursor=" ++ String.mk tl) "?"
      = some (String.mk b.data,
          String.mk (joinSep ['&'] (kept.map String.data) ++
            '&' :: (("cursor=" : String).data ++ tl))) := by
    rw [strSplitOnce]
    have : ("?" : String).data = ['?'] := rfl
    rw [this, hsplit1]
    rfl
  rw [urlCursorParams, hsponce]
  show (strSplitAll (String.mk (joinSep ['&'] (kept.map String.data) ++
      '&' :: (("cursor=" : String).data ++ tl))) '&').filter
      (fun p => strStartsWith p "cursor=") = _
  -- split the rebuilt query string back into parameters
  have hsplitq : splitChar '&' (joinSep ['&'] (kept.map String.data) ++
      '&' :: (("cursor=" : String).data ++ tl))
      = splitChar '&' (joinSep ['&'] (kept.map String.data)) ++
        [("cursor=" : String).data ++ tl] := by
    rw [splitChar_append, splitChar_single hctok]
  have hsplitall : strSplitAll (String.mk (joinSep ['&'] (kept.map String.data) ++
      '&' :: (("cursor=" : String).data ++ tl))) '&'
      = (splitChar '&' (joinSep ['&'] (kept.map String.data))).map String.mk ++
        [String.mk (("cursor=" : String).data ++ tl)] := by
    rw [strSplitAll]
    show (splitChar '&' (joinSep ['&'] (kept.map String.data) ++
      '&' :: (("cursor=" : String).data ++ tl))).map String.mk = _
    rw [hsplitq, List.map_append]
    rfl
  rw [hsplitall, List.filter_append]
  have hlast : strStartsWith (String.mk (("cursor=" : String).data ++ tl)) "cursor=" = true := by
    rw [strStartsWith]
    exact List.isPrefixOf_iff_prefix.2 (List.prefix_append _ _)
  have hmk : String.mk (("cursor=" : String).data ++ tl) = "cursor=" ++ String.mk tl := rfl
  have hkfilter : ((splitChar '&' (joinSep ['&'] (kept.map String.data))).map String.mk).filter
      (fun p => strStartsWith p "cursor=") = [] := by
    cases hk : kept with
    | nil =>
      simp only [hk, List.map_nil]
      show ((splitChar '&' (joinSep ['&'] [])).map String.mk).filter _ = []
      have : splitChar '&' (joinSep ['&'] ([] : List (List Char))) = [[]] := by
        rw [show joinSep ['&'] ([] : List (List Char)) = [] from rfl, splitChar_nil]
      rw [this]
      simp only [List.map_cons, List.map_nil]
      rw [List.filter_eq_nil_iff.2]
      intro p hp
      rcases List.mem_singleton.1 hp with h
      subst h
      decide
    | cons k0 ks =>
      subst hk
      have hne : (k0 :: ks).map String.data ≠ [] := by simp
      have hmemfree : ∀ p ∈ (k0 :: ks).map String.data, ('&' : Char) ∉ p := by
        intro p hp
        obtain ⟨p0, hp0, hp0e⟩ := List.mem_map.1 hp
        rw [← hp0e]
        exact hkdata p0 hp0
      rw [splitChar_joinSep hne hmemfree, map_mk_data]
      refine List.filter_eq_nil_iff.2 ?_
      intro p hp hcontra
      rw [hknp p hp] at hcontra
      exact Bool.false_ne_true hcontra
  rw [hkfilter, List.nil_append]
  simp only [List.filter_cons, List.filter_nil, hlast, if_true]
  rw [hmk]

theorem crossref_next_eval (d : JDict) (url token : String)
    (msg : List (String × JSON)) (its : List JSON)
    (hmsg : jfind d "message" = some (.obj msg))
    (hcur : jget msg "next-cursor" .null = .str token)
    (hits : jget msg "items" (.arr []) = .arr its)
    (hne : its ≠ [])
    (htok : token ≠ "")
    (b q : String)
    (hcontains : strContainsSub url "cursor=" = true)
    (hsp : strSplitOnce url "?" = some (b, q)) :
    crossref_get_next_page_url d url =
      .ok (some ((b ++ "?" ++ strJoin "&" ((strSplitAll q '&').filter
        (fun p => !strStartsWith p "cursor="))) ++ "&cursor=" ++ token)) := by
  have hempty : its.isEmpty = false := by
    cases its with
    | nil => exact absurd rfl hne
    | cons a l => rfl
  have hlen : (its.length == 0) = false := by
    cases its with
    | nil => exact absurd rfl hne
    | cons a l => rfl
  have htok2 : (token != "") = true := by
    simp [htok]
  rw [crossref_get_next_page_url, hmsg]
  simp only [JSON.pyGet, hcur, hits, Bind.bind, Except.bind, JSON.truthy,
    hempty, Bool.not_false, Bool.not_true, JSON.pyLen, hlen, htok2,
    Bool.false_eq_true, if_false, if_true, hcontains, hsp, JSON.pyStr,
    pure, Except.pure]

/-! ### Claim C1 -/

/-- C1 (counterexample): the claim as stated is false.  The next-cursor
token is appended to the URL verbatim, so a token containing
`&cursor=` — allowed by the claim's quantification over all response
bodies — yields a URL with two `cursor` parameters.  Here the current URL
`http://x?r=1&cursor=OLD` has exactly one cursor parameter, the message
carries one item and next-cursor token `a&cursor=b`, and the rewritten URL
carries two cursor parameters (`cursor=a` and `cursor=b`), and neither
value is the token.  Moreover a present-but-empty next-cursor token is
falsy in Python, so the function returns `None` instead of any URL. -/
theorem crossref_cursor_rewrite_counterexample :
    urlCursorParams "http://x?r=1&cursor=OLD" = ["cursor=OLD"] ∧
    crossref_get_next_page_url
      [("message", .obj [("items", .arr [.obj []]),
        ("next-cursor", .str "a&cursor=b")])]
      "http://x?r=1&cursor=OLD"
      = .ok (some "http://x?r=1&cursor=a&cursor=b") ∧
    urlCursorParams "http://x?r=1&cursor=a&cursor=b"
      = ["cursor=a", "cursor=b"] ∧
    crossref_get_next_page_url
      [("message", .obj [("items", .arr [.obj []]), ("next-cursor", .str "")])]
      "http://x?r=1&cursor=OLD"
      = .ok none := by
  refine ⟨?_, ?_, ?_, ?_⟩ <;> rfl

/-- C1 (amended): for every current URL whose query string contains a
`cursor` parameter and every Crossref response body whose message carries
a non-empty item list and a non-empty next-cursor token *that contains no
`&` character*, `_get_next_page_url` returns a URL whose query string
contains exactly one `cursor` parameter, and that parameter's value is
the new token. -/
theorem crossref_cursor_rewrite_unique (d : JDict) (url token : String)
    (msg : List (String × JSON)) (its : List JSON)
    (hmsg : jfind d "message" = some (.obj msg))
    (hcur : jget msg "next-cursor" .null = .str token)
    (hits : jget msg "items" (.arr []) = .arr its)
    (hne : its ≠ [])
    (htok : token ≠ "")
    (hamp : '&' ∉ token.data)
    (hurl : urlCursorParams url ≠ []) :
    ∃ u, crossref_get_next_page_url d url = .ok (some u) ∧
      urlCursorParams u = ["cursor=" ++ token] := by
  obtain ⟨b, q, hsp, part, hmem, hpre⟩ := urlCursorParams_ne_nil_elim url hurl
  have hcontains := contains_of_cursor_param hsp hmem hpre
  refine ⟨_, crossref_next_eval d url token msg its hmsg hcur hits hne htok
    b q hcontains hsp, ?_⟩
  obtain ⟨⟨x, y⟩, h1, h2⟩ := Option.map_eq_some'.1 hsp
  have hbx : b = String.mk x := by
    have := congrArg Prod.fst h2
    simp at this
    rw [← this]
  have hqy : q = String.mk y := by
    have := congrArg Prod.snd h2
    simp at this
    rw [← this]
  have hqm : ("?" : String).data = ['?'] := rfl
  rw [hqm] at h1
  apply urlCursorParams_rebuilt
  · rw [hbx]
    exact splitSub1_nomem h1
  · exact hamp
  · intro p hp
    have hp2 := List.mem_of_mem_filter hp
    obtain ⟨pd, hpd, hpmk⟩ := List.mem_map.1 hp2
    rw [← hpmk]
    show ('&' : Char) ∉ pd
    exact splitChar_nomem '&' q.data pd hpd
  · intro p hp
    have := List.of_mem_filter hp
    simp only [Bool.not_eq_true'] at this
    exact this

/-- C1 witness: a concrete instance of the amended cursor-rewrite theorem.
The current URL `http://x?rows=1&cursor=OLD` holds one cursor parameter
and the token is `NEW`; the rewritten URL's single cursor parameter is
`cursor=NEW`. -/
theorem crossref_cursor_rewrite_unique_witness :
    ∃ u, crossref_get_next_page_url
      [("message", .obj [("items", .arr [.obj []]), ("next-cursor", .str "NEW")])]
      "http://x?rows=1&cursor=OLD" = .ok (some u) ∧
      urlCursorParams u = ["cursor=" ++ "NEW"] :=
  crossref_cursor_rewrite_unique _ "http://x?rows=1&cursor=OLD" "NEW" _ [.obj []]
    rfl rfl rfl (by simp) (by decide) (by decide) (by decide)

/-! ### Claim C2 -/

/-- C2 (counterexample): the claim as stated is false for the Scopus
adapter.  A response whose parsed page has an empty record list
(`entry` is `[]`) but which still carries a `next` link makes
`ScopusSearchClient._get_next_page_url` return that link rather than
none: the Scopus adapter never inspects the record list. -/
theorem scopus_next_ignores_empty_counterexample :
    scopus_parse_page_response
      [("search-results", .obj [("entry", .arr []),
        ("link", .arr [.obj [("@ref", .str "next"), ("@href", .str "http://next")]])])] 0
      = .ok ⟨0, .num 0, .arr [], none, some .null⟩ ∧
    scopus_get_next_page_url
      [("search-results", .obj [("entry", .arr []),
        ("link", .arr [.obj [("@ref", .str "next"), ("@href", .str "http://next")]])])] "u"
      = .ok (some (.str "http://next")) :=
  ⟨rfl, rfl⟩

/-- C2 (amended): for every response body whose parsed page has an empty
record list, the **Crossref** adapter's `_get_next_page_url` returns none
regardless of any continuation token present in the body.  (The Scopus
adapter does not inspect the record list and follows a `next` link even
on an empty page.) -/
theorem crossref_next_none_on_empty (d : JDict) (page : Int) (url : String)
    (p : ParsedPage)
    (hp : crossref_parse_page_response d page = .ok p)
    (hres : p.results = .arr []) :
    crossref_get_next_page_url d url = .ok none := by
  rw [crossref_parse_page_response] at hp
  split at hp
  · cases hp
    simp at hres
  · split at hp
    · cases hp
      simp at hres
    · rename_i hmsgn
      rcases hmsg : jfind d "message" with _ | m
      · rw [hmsg] at hmsgn
        simp at hmsgn
      · have hjget : jget d "message" JSON.null = m := by
          rw [jget, hmsg]; rfl
        rw [hjget] at hp
        rw [crossref_get_next_page_url, hmsg]
        cases m with
        | obj kvs =>
          simp only [JSON.pyGet, Bind.bind, Except.bind] at hp
          cases hp
          simp only [ParsedPage.results] at hres
          simp only [JSON.pyGet, Bind.bind, Except.bind, hres, JSON.truthy,
            List.isEmpty_nil, Bool.not_true, Bool.false_eq_true, if_false,
            Bool.not_false, if_true]
        | null => simp [JSON.pyGet, Bind.bind, Except.bind] at hp
        | bool b => simp [JSON.pyGet, Bind.bind, Except.bind] at hp
        | num n => simp [JSON.pyGet, Bind.bind, Except.bind] at hp
        | str s2 => simp [JSON.pyGet, Bind.bind, Except.bind] at hp
        | arr xs => simp [JSON.pyGet, Bind.bind, Except.bind] at hp

/-- C2 witness: a Crossref body with an empty item list and a live
continuation token still produces no next-page URL. -/
theorem crossref_next_none_on_empty_witness :
    crossref_get_next_page_url
      [("message", .obj [("items", .arr []), ("next-cursor", .str "T")])] "u"
      = .ok none :=
  crossref_next_none_on_empty _ 0 "u"
    ⟨0, .num 0, .arr [], none, some (.str "T")⟩ rfl rfl

/-! ### Claim C3 -/

/-- C3 (counterexample): the claim as stated is false.  Python `dict.get`
returns the stored value even when it is `None`, so a Crossref body with
`status` not `ok` and `message-type: null`, or a Scopus body with
`error: null`, produces a page whose error tag is null, not non-null. -/
theorem parse_error_envelope_counterexample :
    crossref_parse_page_response [("status", .str "failed"), ("message-type", .null)] 3
      = .ok ⟨3, .num 0, .null, some .null, none⟩ ∧
    scopus_parse_page_response [("error", .null)] 7
      = .ok ⟨7, .num 0, .null, some .null, none⟩ :=
  ⟨rfl, rfl⟩

/-- C3 (amended): for every response body containing a provider-level
error envelope (Crossref: a `status` field whose value is not `"ok"`;
Scopus: an `error` key), `_parse_page_response` returns a page with null
record list, declared total 0, the given page index and a present error
tag; the tag is non-null provided the envelope's tag value itself is
non-null (Crossref tags default to `"unknown_error"` when `message-type`
is absent; a `message-type`/`error` value of null is passed through). -/
theorem parse_error_envelope_spec :
    (∀ (d : JDict) (page : Int) (s : JSON),
      jfind d "status" = some s → s.eqStr "ok" = false →
      jget d "message-type" (.str "unknown_error") ≠ .null →
      ∃ tag, crossref_parse_page_response d page
          = .ok ⟨page, .num 0, .null, some tag, none⟩ ∧ tag ≠ .null)
  ∧ (∀ (d : JDict) (page : Int) (e : JSON),
      jfind d "error" = some e → e ≠ .null →
      ∃ tag, scopus_parse_page_response d page
          = .ok ⟨page, .num 0, .null, some tag, none⟩ ∧ tag ≠ .null) := by
  constructor
  · intro d page s hs hok htag
    refine ⟨jget d "message-type" (.str "unknown_error"), ?_, htag⟩
    rw [crossref_parse_page_response, if_pos]
    rw [hs]
    simp [hok]
  · intro d page e he hne
    refine ⟨e, ?_, hne⟩
    rw [scopus_parse_page_response, he]

/-- C3 witness: concrete error envelopes for both providers.  Crossref
with no `message-type` yields the `"unknown_error"` tag; Scopus yields
the stored error object. -/
theorem parse_error_envelope_spec_witness :
    (∃ tag, crossref_parse_page_response [("status", .str "failed")] 2
        = .ok ⟨2, .num 0, .null, some tag, none⟩ ∧ tag ≠ .null)
  ∧ (∃ tag, scopus_parse_page_response [("error", .str "invalid query")] 5
        = .ok ⟨5, .num 0, .null, some tag, none⟩ ∧ tag ≠ .null) :=
  ⟨parse_error_envelope_spec.1 [("status", .str "failed")] 2 (.str "failed")
      rfl rfl (by simp [jget, jfind]),
   parse_error_envelope_spec.2 [("error", .str "invalid query")] 5
      (.str "invalid query") rfl (by simp)⟩

/-! ### Claim C4 -/

/-- C4 (confirmed): authentication setup fails fast exactly for mandatory
credentials.  `ScopusSearchClient._setup_session` raises its descriptive
`ValueError` precisely when the configured API key is the empty string;
`CrossrefSearchClient._setup_session` always succeeds, logging the
public-pool warning exactly when no mailto is configured; and
`CrossrefSearchFetcher.__init__` with no mailto and no explicit
`requests_per_second` falls back to the conservative public-pool default
of 1.0 requests per second. -/
theorem auth_setup_spec :
    (∀ k : String, scopus_setup_session k = .error scopusKeyErrorMessage ↔ k = "")
  ∧ (∀ k : String, (scopus_setup_session k).isOk ↔ k ≠ "")
  ∧ (∀ m : String, (crossref_setup_session m).isOk)
  ∧ (∀ m : String, crossref_setup_session m
      = .ok ([("User-Agent", "api_clients/1.0" ++
          (if m != "" then " (mailto:" ++ m ++ ")" else "")),
         ("Accept", "application/json")], m = ""))
  ∧ crossref_fetcher_rate none none = 1 := by
  refine ⟨?_, ?_, ?_, ?_, rfl⟩
  · intro k
    rw [scopus_setup_session]
    by_cases hk : k = "" <;> simp [hk]
  · intro k
    rw [scopus_setup_session]
    by_cases hk : k = "" <;> simp [hk, Except.isOk, Except.toBool]
  · intro m
    rfl
  · intro m
    rfl

/-! ### Dict lemmas for URL-parameter reasoning -/

theorem dictHas_iff_exists {d : Params} {k : String} :
    dictHas d k = true ↔ ∃ p ∈ d, p.1 = k := by
  rw [dictHas, dictFind]
  simp [List.find?_isSome]

theorem dictHas_append (a b : Params) (k : String) :
    dictHas (a ++ b) k = (dictHas a k || dictHas b k) := by
  rw [Bool.eq_iff_iff]
  simp only [Bool.or_eq_true, dictHas_iff_exists]
  constructor
  · rintro ⟨p, hp, hk⟩
    rcases List.mem_append.1 hp with h | h
    · exact Or.inl ⟨p, h, hk⟩
    · exact Or.inr ⟨p, h, hk⟩
  · rintro (⟨p, hp, hk⟩ | ⟨p, hp, hk⟩)
    · exact ⟨p, List.mem_append_left b hp, hk⟩
    · exact ⟨p, List.mem_append_right a hp, hk⟩

theorem dictMerge_map_key (b : Params) (p : String × String) :
    (match b.find? (fun q : String × String => q.1 == p.1) with
     | some q => (p.1, q.2)
     | none => p).1 = p.1 := by
  rcases hf : b.find? (fun q : String × String => q.1 == p.1) with _ | q
  · rfl
  · rfl

theorem dictHas_merge (a b : Params) (k : String) :
    dictHas (dictMerge a b) k = (dictHas a k || dictHas b k) := by
  rw [dictMerge, dictHas_append]
  rw [Bool.eq_iff_iff]
  simp only [Bool.or_eq_true, dictHas_iff_exists]
  constructor
  · rintro (⟨p, hp, hk⟩ | ⟨p, hp, hk⟩)
    · obtain ⟨p0, hp0, hp0e⟩ := List.mem_map.1 hp
      left
      refine ⟨p0, hp0, ?_⟩
      rw [← hk, ← hp0e]
      exact (dictMerge_map_key b p0).symm
    · exact Or.inr ⟨p, List.mem_of_mem_filter hp, hk⟩
  · rintro (⟨p, hp, hk⟩ | ⟨p, hp, hk⟩)
    · refine Or.inl ⟨_, List.mem_map_of_mem _ hp, ?_⟩
      rw [dictMerge_map_key b p]
      exact hk
    · by_cases hb : a.any (fun p2 => p2.1 == p.1)
      · obtain ⟨p2, hp2, hp2k⟩ := List.any_eq_true.1 hb
        refine Or.inl ⟨_, List.mem_map_of_mem _ hp2, ?_⟩
        rw [dictMerge_map_key b p2]
        have : p2.1 = p.1 := by simpa using hp2k
        rw [this, hk]
      · refine Or.inr ⟨p, List.mem_filter.2 ⟨hp, ?_⟩, hk⟩
        simp only [Bool.not_eq_true] at hb
        simp [hb]

theorem dictHas_set_ne {k k2 : String} (d : Params) (v : String)
    (h : k ≠ k2) : dictHas (dictSet d k v) k2 = dictHas d k2 := by
  rw [dictSet]
  by_cases hd : dictHas d k
  · rw [if_pos hd, Bool.eq_iff_iff]
    simp only [dictHas_iff_exists]
    constructor
    · rintro ⟨p, hp, hk⟩
      obtain ⟨p0, hp0, hp0e⟩ := List.mem_map.1 hp
      by_cases he : p0.1 == k
      · rw [if_pos he] at hp0e
        rw [← hp0e] at hk
        exact absurd hk h
      · rw [if_neg he] at hp0e
        exact ⟨p0, hp0, hp0e ▸ hk⟩
    · rintro ⟨p, hp, hk⟩
      have he : (p.1 == k) = false := by
        simp only [beq_eq_false_iff_ne, ne_eq]
        rw [hk]
        exact fun e => h e.symm
      refine ⟨p, List.mem_map.2 ⟨p, hp, ?_⟩, hk⟩
      rw [he]
      simp
  · rw [if_neg hd, dictHas_append, Bool.eq_iff_iff]
    simp only [Bool.or_eq_true, dictHas_iff_exists]
    constructor
    · rintro (hin | ⟨p, hp, hk⟩)
      · exact hin
      · rcases List.mem_singleton.1 hp with rfl
        exact absurd hk h
    · exact Or.inl

theorem dict_filter_key_nil {d : Params} {k : String}
    (h : dictHas d k = false) : d.filter (fun p => p.1 == k) = [] := by
  refine List.filter_eq_nil_iff.2 ?_
  intro p hp hk
  rw [← Bool.not_eq_true] at h
  exact h (dictHas_iff_exists.2 ⟨p, hp, by simpa using hk⟩)

theorem dict_filter_set_ne {k k2 : String} (d : Params) (v : String)
    (h : k ≠ k2) :
    (dictSet d k v).filter (fun p => p.1 == k2) = d.filter (fun p => p.1 == k2) := by
  rw [dictSet]
  by_cases hd : dictHas d k
  · rw [if_pos hd]
    rw [List.filter_map]
    have hcong : ∀ p ∈ d,
        ((fun p => p.1 == k2) ∘ fun p => if p.1 == k then (k, v) else p) p
          = (p.1 == k2) := by
      intro p hp
      by_cases he : p.1 == k
      · have hpk : p.1 = k := by simpa using he
        simp only [Function.comp_apply, if_pos he]
        rw [Bool.eq_iff_iff]
        simp [hpk]
      · simp only [Function.comp_apply, if_neg he]
    rw [List.filter_congr hcong]
    refine List.map_congr_left ?_ |>.trans (List.map_id _)
    intro p hp
    have hk2 : (p.1 == k2) = true := (List.mem_filter.1 hp).2
    have : (p.1 == k) = false := by
      simp only [beq_eq_false_iff_ne, ne_eq]
      intro e
      have : p.1 = k2 := by simpa using hk2
      exact h (e ▸ this ▸ rfl)
    rw [this]
    simp
  · rw [if_neg hd, List.filter_append]
    have : ([(k, v)].filter (fun p => p.1 == k2)) = [] := by
      simp [h]
    rw [this, List.append_nil]

theorem dict_set_absent {d : Params} {k : String} (v : String)
    (h : dictHas d k = false) : dictSet d k v = d ++ [(k, v)] := by
  rw [dictSet, if_neg]
  simp [h]

theorem dictHas_of_find {d : Params} {k : String} {v : String}
    (h : dictFind d k = some v) : dictHas d k = true := by
  rw [dictHas, h]
  rfl

theorem dict_nodup_filter {d : Params} {k : String} {v : String}
    (hnd : (d.map Prod.fst).Nodup) (h : dictFind d k = some v) :
    d.filter (fun p => p.1 == k) = [(k, v)] := by
  induction d with
  | nil => simp [dictFind] at h
  | cons e es ih =>
    rw [dictFind] at h
    by_cases he : (e.1 == k) = true
    · rw [@List.find?_cons_of_pos _ (fun q => q.1 == k) e es he] at h
      simp only [Option.map_some'] at h
      have hek : e.1 = k := by simpa using he
      have hev : e = (k, v) := by
        rcases e with ⟨e1, e2⟩
        simp only at hek
        simp only [Option.some_inj] at h
        rw [hek, h]
      rw [@List.filter_cons_of_pos _ (fun q => q.1 == k) e es he, hev]
      have hrest : es.filter (fun p => p.1 == k) = [] := by
        refine List.filter_eq_nil_iff.2 ?_
        intro p hp hpk
        have hpk2 : p.1 = k := by simpa using hpk
        have : e.1 ∉ es.map Prod.fst := (List.nodup_cons.1 (by simpa using hnd)).1
        exact this (hek ▸ hpk2 ▸ List.mem_map_of_mem Prod.fst hp)
      rw [hrest]
    · rw [@List.find?_cons_of_neg _ (fun q => q.1 == k) e es he] at h
      rw [@List.filter_cons_of_neg _ (fun q => q.1 == k) e es he]
      exact ih (List.nodup_cons.1 (by simpa using hnd)).2 (by rw [dictFind]; exact h)

theorem infix_append_left {l m a : List Char} (h : l <:+: m) :
    l <:+: a ++ m := by
  obtain ⟨s, t, hst⟩ := h
  exact ⟨a ++ s, t, by rw [← hst]; simp⟩

/-! ### Claim C5 -/

/-- C5 (confirmed): `CrossrefSearchClient._build_search_url` primes cursor
pagination.  For every query and parameter mapping without a `cursor` key,
the assembled parameter dict carries exactly one `cursor` binding with the
sentinel value `*`, and the final URL string contains the encoded
sentinel `cursor=%2A`; when the caller supplies a `cursor` parameter (the
mapping having unique keys), that value is kept and no sentinel is
added. -/
theorem crossref_build_url_cursor_sentinel :
    (∀ (query mailto base_url : String) (params : Params),
      dictHas params "cursor" = false →
      (crossref_url_params mailto crossrefDefaultParams query params).filter
          (fun p => p.1 == "cursor") = [("cursor", "*")] ∧
      strContainsSub
        (crossref_build_search_url mailto base_url crossrefDefaultParams query params)
        "cursor=%2A" = true)
  ∧ (∀ (query mailto : String) (params : Params) (v : String),
      (params.map Prod.fst).Nodup →
      dictFind params "cursor" = some v →
      (crossref_url_params mailto crossrefDefaultParams query params).filter
          (fun p => p.1 == "cursor") = [("cursor", v)]) := by
  constructor
  · intro query mailto base_url params hc
    have hdef : dictHas crossrefDefaultParams "cursor" = false := by decide
    have h0 : dictHas (dictMerge crossrefDefaultParams params) "cursor" = false := by
      rw [dictHas_merge, hdef, hc]
      rfl
    have h1 : dictHas (dictSet (dictMerge crossrefDefaultParams params) "query" query)
        "cursor" = false := by
      rw [dictHas_set_ne _ _ (by decide)]
      exact h0
    have h2 : dictHas
        (if mailto != "" &&
            !dictHas (dictSet (dictMerge crossrefDefaultParams params) "query" query) "mailto"
         then dictSet (dictSet (dictMerge crossrefDefaultParams params) "query" query)
            "mailto" mailto
         else dictSet (dictMerge crossrefDefaultParams params) "query" query)
        "cursor" = false := by
      split
      · rw [dictHas_set_ne _ _ (by decide)]
        exact h1
      · exact h1
    have hps : crossref_url_params mailto crossrefDefaultParams query params =
        (if mailto != "" &&
            !dictHas (dictSet (dictMerge crossrefDefaultParams params) "query" query) "mailto"
         then dictSet (dictSet (dictMerge crossrefDefaultParams params) "query" query)
            "mailto" mailto
         else dictSet (dictMerge crossrefDefaultParams params) "query" query)
          ++ [("cursor", "*")] := by
      rw [crossref_url_params]
      simp only [h2, Bool.not_false, if_true]
      exact dict_set_absent "*" h2
    constructor
    · rw [hps, List.filter_append, dict_filter_key_nil h2]
      rfl
    · rw [crossref_build_search_url, hps]
      rw [strContainsSub, listContainsSub_iff]
      have henc : urlencodePairs
          ((if mailto != "" &&
              !dictHas (dictSet (dictMerge crossrefDefaultParams params) "query" query) "mailto"
            then dictSet (dictSet (dictMerge crossrefDefaultParams params) "query" query)
              "mailto" mailto
            else dictSet (dictMerge crossrefDefaultParams params) "query" query)
            ++ [("cursor", "*")])
          = strJoin "&"
            (((if mailto != "" &&
                !dictHas (dictSet (dictMerge crossrefDefaultParams params) "query" query) "mailto"
              then dictSet (dictSet (dictMerge crossrefDefaultParams params) "query" query)
                "mailto" mailto
              else dictSet (dictMerge crossrefDefaultParams params) "query" query)).map
                (fun p => quotePlus p.1 ++ "=" ++ quotePlus p.2)
              ++ ["cursor=%2A"]) := by
        rw [urlencodePairs, List.map_append]
        rfl
      rw [henc, strJoin]
      have hmem : ("cursor=%2A" : String).data ∈
          ((((if mailto != "" &&
              !dictHas (dictSet (dictMerge crossrefDefaultParams params) "query" query) "mailto"
            then dictSet (dictSet (dictMerge crossrefDefaultParams params) "query" query)
              "mailto" mailto
            else dictSet (dictMerge crossrefDefaultParams params) "query" query)).map
              (fun p => quotePlus p.1 ++ "=" ++ quotePlus p.2)
            ++ ["cursor=%2A"]).map String.data) := by
        rw [List.map_append]
        exact List.mem_append_right _ (by simp)
      have hinf := @part_of_joinSep ("&" : String).data _ _ hmem
      simp only [String.data_append]
      exact infix_append_left hinf
  · intro query mailto params v hnd hv
    have hdef : dictHas crossrefDefaultParams "cursor" = false := by decide
    have hfil0 : (dictMerge crossrefDefaultParams params).filter
        (fun p => p.1 == "cursor") = [("cursor", v)] := by
      rw [dictMerge, List.filter_append]
      have hleft : (crossrefDefaultParams.map (fun p =>
          match params.find? (fun q => q.1 == p.1) with
          | some q => (p.1, q.2)
          | none => p)).filter (fun p => p.1 == "cursor") = [] := by
        refine List.filter_eq_nil_iff.2 ?_
        intro p hp hpk
        obtain ⟨p0, hp0, hp0e⟩ := List.mem_map.1 hp
        have hk0 : p.1 = p0.1 := by rw [← hp0e]; exact dictMerge_map_key params p0
        have : p0.1 = "cursor" := by rw [← hk0]; simpa using hpk
        have hin : dictHas crossrefDefaultParams "cursor" = true :=
          dictHas_iff_exists.2 ⟨p0, hp0, this⟩
        rw [hdef] at hin
        exact Bool.false_ne_true hin
      have hright : (params.filter (fun q =>
          !(crossrefDefaultParams.any (fun p => p.1 == q.1)))).filter
            (fun p => p.1 == "cursor") = params.filter (fun p => p.1 == "cursor") := by
        rw [List.filter_filter]
        refine List.filter_congr ?_
        intro p hp
        by_cases hpk : p.1 == "cursor"
        · have hpc : p.1 = "cursor" := by simpa using hpk
          have : (crossrefDefaultParams.any (fun q => q.1 == p.1)) = false := by
            rw [hpc]
            decide
          rw [hpk, this]
          rfl
        · have hf : (p.1 == "cursor") = false := by
            simpa using hpk
          rw [hf]
          simp
      rw [hleft, hright, List.nil_append]
      exact dict_nodup_filter hnd hv
    have hfil1 : (dictSet (dictMerge crossrefDefaultParams params) "query" query).filter
        (fun p => p.1 == "cursor") = [("cursor", v)] := by
      rw [dict_filter_set_ne _ _ (by decide)]
      exact hfil0
    have hfil2 : ((if mailto != "" &&
          !dictHas (dictSet (dictMerge crossrefDefaultParams params) "query" query) "mailto"
        then dictSet (dictSet (dictMerge crossrefDefaultParams params) "query" query)
          "mailto" mailto
        else dictSet (dictMerge crossrefDefaultParams params) "query" query)).filter
        (fun p => p.1 == "cursor") = [("cursor", v)] := by
      split
      · rw [dict_filter_set_ne _ _ (by decide)]
        exact hfil1
      · exact hfil1
    have hhas2 : dictHas
        (if mailto != "" &&
            !dictHas (dictSet (dictMerge crossrefDefaultParams params) "query" query) "mailto"
         then dictSet (dictSet (dictMerge crossrefDefaultParams params) "query" query)
            "mailto" mailto
         else dictSet (dictMerge crossrefDefaultParams params) "query" query)
        "cursor" = true := by
      have h0 : dictHas (dictMerge crossrefDefaultParams params) "cursor" = true := by
        rw [dictHas_merge, dictHas_of_find hv]
        simp
      have h1 : dictHas (dictSet (dictMerge crossrefDefaultParams params) "query" query)
          "cursor" = true := by
        rw [dictHas_set_ne _ _ (by decide)]
        exact h0
      split
      · rw [dictHas_set_ne _ _ (by decide)]
        exact h1
      · exact h1
    rw [crossref_url_params]
    simp only [hhas2, Bool.not_true, Bool.false_eq_true, if_false]
    exact hfil2

/-- C5 witness: with no caller-supplied parameters the sentinel is added
(first part at `params = []`), and a caller-supplied `cursor=tok` is kept
verbatim with no sentinel (second part). -/
theorem crossref_build_url_cursor_sentinel_witness :
    ((crossref_url_params "" crossrefDefaultParams "q" []).filter
        (fun p => p.1 == "cursor") = [("cursor", "*")] ∧
      strContainsSub (crossref_build_search_url "" "https://api.crossref.org/works"
        crossrefDefaultParams "q" []) "cursor=%2A" = true)
  ∧ (crossref_url_params "" crossrefDefaultParams "q" [("cursor", "tok")]).filter
        (fun p => p.1 == "cursor") = [("cursor", "tok")] :=
  ⟨crossref_build_url_cursor_sentinel.1 "q" "" "https://api.crossref.org/works" [] rfl,
   crossref_build_url_cursor_sentinel.2 "q" "" [("cursor", "tok")] "tok"
     (by simp) rfl⟩

/-! ### Claim C6 -/

theorem cacheGet_eq_of_mem {c : Cache} {q : String} {e : String × List CacheRow}
    (hnd : (c.map Prod.fst).Nodup) (he : e ∈ c) (hk : e.1 = q) :
    cacheGet c q = some e.2 := by
  induction c with
  | nil => cases he
  | cons f fs ih =>
    by_cases hf : (f.1 == q) = true
    · rw [cacheGet, @List.find?_cons_of_pos _ (fun x => x.1 == q) f fs hf,
        Option.map_some']
      rcases List.mem_cons.1 he with rfl | hmem
      · rfl
      · exfalso
        have hq : f.1 = q := by simpa using hf
        have : f.1 ∈ fs.map Prod.fst := by
          rw [hq, ← hk]
          exact List.mem_map_of_mem Prod.fst hmem
        exact (List.nodup_cons.1 (by simpa using hnd)).1 this
    · rw [cacheGet, @List.find?_cons_of_neg _ (fun x => x.1 == q) f fs hf]
      rcases List.mem_cons.1 he with rfl | hmem
      · exact absurd (by simp [hk]) hf
      · have := ih (List.nodup_cons.1 (by simpa using hnd)).2 hmem
        rw [cacheGet] at this
        exact this

theorem cache_filter_nodup_keys (c : Cache) (p : String × List CacheRow → Bool)
    (hnd : (c.map Prod.fst).Nodup) : ((c.filter p).map Prod.fst).Nodup :=
  List.Sublist.nodup ((List.filter_sublist c).map Prod.fst) hnd

theorem clean_max_hits_step_nodup (cap : Int) (c : Cache) (q : String)
    (hnd : (c.map Prod.fst).Nodup) :
    ((clean_max_hits_step cap c q).map Prod.fst).Nodup := by
  rw [clean_max_hits_step]
  rcases hg : cacheGet c q with _ | rows <;> dsimp only
  · exact hnd
  · split
    · rw [cacheDelete]
      exact cache_filter_nodup_keys c _ hnd
    · exact hnd

theorem clean_max_hits_fold (cap : Int) (ks : List String) (c : Cache)
    (hnd : (c.map Prod.fst).Nodup) :
    ks.foldl (clean_max_hits_step cap) c
      = c.filter (fun e => !(ks.contains e.1 && entryExceedsCap cap e.2)) := by
  induction ks generalizing c with
  | nil =>
    rw [List.foldl_nil]
    symm
    refine (List.filter_congr ?_).trans (List.filter_true c)
    intro e he
    simp
  | cons q ks ih =>
    rw [List.foldl_cons, ih (clean_max_hits_step cap c q)
      (clean_max_hits_step_nodup cap c q hnd)]
    rw [clean_max_hits_step]
    rcases hget : cacheGet c q with _ | rows <;> dsimp only
    · refine List.filter_congr ?_
      intro e he
      have hne : (e.1 == q) = false := by
        refine beq_eq_false_iff_ne.2 ?_
        intro hk
        rw [cacheGet_eq_of_mem hnd he hk] at hget
        cases hget
      rw [List.contains_cons, hne]
      rfl
    · by_cases hbad : entryExceedsCap cap rows = true
      · rw [if_pos hbad, cacheDelete, List.filter_filter]
        refine List.filter_congr ?_
        intro e he
        by_cases hk : e.1 = q
        · have hrows : e.2 = rows := by
            have := cacheGet_eq_of_mem hnd he hk
            rw [hget] at this
            exact (Option.some_inj.1 this).symm
          have hbeq : (e.1 == q) = true := by simp [hk]
          rw [List.contains_cons, hbeq, hrows, hbad]
          simp
        · have hbeq : (e.1 == q) = false := beq_eq_false_iff_ne.2 hk
          rw [List.contains_cons, hbeq]
          simp
      · rw [if_neg hbad]
        refine List.filter_congr ?_
        intro e he
        by_cases hk : e.1 = q
        · have hrows : e.2 = rows := by
            have := cacheGet_eq_of_mem hnd he hk
            rw [hget] at this
            exact (Option.some_inj.1 this).symm
          have hb2 : entryExceedsCap cap rows = false := by
            simpa using hbad
          rw [List.contains_cons, hrows, hb2]
          simp
        · have hbeq : (e.1 == q) = false := beq_eq_false_iff_ne.2 hk
          rw [List.contains_cons, hbeq]
          simp

/-- C7 (confirmed): `ScopusSearchFetcher.clean_max_hits` deletes exactly
the cache entries that contain at least one row with a null data payload
and a declared total strictly above the configured
`max_results_per_query`; every other entry survives unchanged (cache
keys being unique). -/
theorem scopus_clean_max_hits_exact (cap : Int) (c : Cache)
    (hnd : (c.map Prod.fst).Nodup) :
    scopus_clean_max_hits cap c
      = c.filter (fun e => !entryExceedsCap cap e.2) := by
  rw [scopus_clean_max_hits, clean_max_hits_fold cap _ c hnd]
  refine List.filter_congr ?_
  intro e he
  have hmem : (c.map (fun e => e.1)).contains e.1 = true := by
    refine List.elem_iff.2 ?_
    exact List.mem_map.2 ⟨e, he, rfl⟩
  rw [hmem]
  rfl

/-- C7 witness: a three-entry cache where exactly the first entry has a
null-payload row whose declared total exceeds the cap of 5000. -/
theorem scopus_clean_max_hits_exact_witness :
    scopus_clean_max_hits 5000
      [("q1", [⟨none, 6000⟩]), ("q2", [⟨some (.num 1), 6000⟩]), ("q3", [⟨none, 10⟩])]
      = ([("q1", [⟨none, 6000⟩]), ("q2", [⟨some (.num 1), 6000⟩]), ("q3", [⟨none, 10⟩])]
          : Cache).filter (fun e => !entryExceedsCap 5000 e.2) :=
  scopus_clean_max_hits_exact 5000
    [("q1", [⟨none, 6000⟩]), ("q2", [⟨some (.num 1), 6000⟩]), ("q3", [⟨none, 10⟩])]
    (by decide)

/-! ### Claim C8 -/

theorem collect_next_links_eq_filter (ls : List JSON)
    (h : ∀ l ∈ ls, ∃ kvs, l = .obj kvs) :
    scopus_collect_next_links ls = .ok (ls.filter isNextLink) := by
  induction ls with
  | nil => rfl
  | cons l ls ih =>
    obtain ⟨kvs, hl⟩ := h l (List.mem_cons_self l ls)
    subst hl
    rw [scopus_collect_next_links]
    rw [ih (fun x hx => h x (List.mem_cons_of_mem _ hx))]
    show Except.ok _ = _
    rw [List.filter_cons]
    show Except.ok (if (jget kvs "@ref" .null).eqStr "next" = true
      then JSON.obj kvs :: ls.filter isNextLink else ls.filter isNextLink) = _
    rfl

theorem find?_head_of_filter {α} (p : α → Bool) (l : List α) (a : α)
    (h : l.find? p = some a) : ∃ t, l.filter p = a :: t := by
  induction l with
  | nil => simp at h
  | cons x xs ih =>
    by_cases hx : p x = true
    · rw [List.find?_cons_of_pos xs hx] at h
      rw [List.filter_cons_of_pos hx]
      exact ⟨xs.filter p, by rw [Option.some_inj.1 h]⟩
    · rw [List.find?_cons_of_neg xs hx] at h
      rw [List.filter_cons_of_neg hx]
      exact ih h

/-- C8 (counterexample): the claim as stated is false.  A body whose
`search-results` carries a non-empty record list and a link entry with
`@ref` equal to `next` but without an `@href` key makes
`next_links[0]['@href']` raise `KeyError`: the function returns neither
the link nor none. -/
theorem scopus_next_link_counterexample :
    scopus_get_next_page_url
      [("search-results", .obj [("entry", .arr [.obj []]),
        ("link", .arr [.obj [("@ref", .str "next")]])])] "u"
      = .error .keyError := rfl

/-- C8 (amended): for every Scopus body whose `search-results` is an
object whose `link` field parses to a list of objects,
`_get_next_page_url` returns the first `@ref = next` link's `@href`
value verbatim whenever that link carries an `@href` — the record list is
never consulted; it returns none when the `search-results` key is absent,
and none when the link list (of objects) contains no `next` link.  (A
next link without `@href` raises `KeyError` instead.) -/
theorem scopus_next_link_spec :
    (∀ (d : JDict) (url : String) (sr : List (String × JSON)) (ls : List JSON)
        (l0 : JSON) (kvs0 : List (String × JSON)) (v : JSON),
      jfind d "search-results" = some (.obj sr) →
      jget sr "link" (.arr []) = .arr ls →
      (∀ l ∈ ls, ∃ kvs, l = .obj kvs) →
      ls.find? isNextLink = some l0 →
      l0 = .obj kvs0 → jfind kvs0 "@href" = some v →
      scopus_get_next_page_url d url = .ok (some v))
  ∧ (∀ (d : JDict) (url : String),
      jfind d "search-results" = none →
      scopus_get_next_page_url d url = .ok none)
  ∧ (∀ (d : JDict) (url : String) (sr : List (String × JSON)) (ls : List JSON),
      jfind d "search-results" = some (.obj sr) →
      jget sr "link" (.arr []) = .arr ls →
      (∀ l ∈ ls, ∃ kvs, l = .obj kvs) →
      (∀ l ∈ ls, isNextLink l = false) →
      scopus_get_next_page_url d url = .ok none) := by
  refine ⟨?_, ?_, ?_⟩
  · intro d url sr ls l0 kvs0 v hsr hlink hobj hfind hl0 hhref
    rw [scopus_get_next_page_url, hsr]
    simp only [JSON.pyGet, hlink, Bind.bind, Except.bind, JSON.pyIterate]
    rw [collect_next_links_eq_filter ls hobj]
    obtain ⟨t, hfil⟩ := find?_head_of_filter isNextLink ls l0 hfind
    rw [hfil]
    show (JSON.pySubscript l0 "@href").bind _ = _
    rw [hl0, JSON.pySubscript]
    rw [hhref]
    rfl
  · intro d url hsr
    rw [scopus_get_next_page_url, hsr]
  · intro d url sr ls hsr hlink hobj hnone
    rw [scopus_get_next_page_url, hsr]
    simp only [JSON.pyGet, hlink, Bind.bind, Except.bind, JSON.pyIterate]
    rw [collect_next_links_eq_filter ls hobj]
    rw [List.filter_eq_nil_iff.2 (fun l hl => by rw [hnone l hl]; exact fun h => by cases h)]

/-- C8 witness: a well-formed body whose first next link carries an
`@href` returns it verbatim; a body without `search-results` and a body
whose links carry no `next` entry both return none. -/
theorem scopus_next_link_spec_witness :
    scopus_get_next_page_url
      [("search-results", .obj [("entry", .arr [.obj []]),
        ("link", .arr [.obj [("@ref", .str "self")],
          .obj [("@ref", .str "next"), ("@href", .str "http://n")]])])] "u"
      = .ok (some (.str "http://n")) ∧
    scopus_get_next_page_url [("foo", .null)] "u" = .ok none ∧
    scopus_get_next_page_url
      [("search-results", .obj [("link", .arr [.obj [("@ref", .str "self")]])])] "u"
      = .ok none := by
  refine ⟨?_, ?_, ?_⟩
  · exact scopus_next_link_spec.1 _ "u" _
      [.obj [("@ref", .str "self")], .obj [("@ref", .str "next"), ("@href", .str "http://n")]]
      (.obj [("@ref", .str "next"), ("@href", .str "http://n")])
      [("@ref", .str "next"), ("@href", .str "http://n")] (.str "http://n")
      rfl rfl
      (by
        intro l hl
        rcases List.mem_cons.1 hl with rfl | hl
        · exact ⟨_, rfl⟩
        · rcases List.mem_singleton.1 hl with rfl
          exact ⟨_, rfl⟩)
      rfl rfl rfl
  · exact scopus_next_link_spec.2.1 _ "u" rfl
  · exact scopus_next_link_spec.2.2 _ "u" _ [.obj [("@ref", .str "self")]]
      rfl rfl
      (by
        intro l hl
        rcases List.mem_singleton.1 hl with rfl
        exact ⟨_, rfl⟩)
      (by
        intro l hl
        rcases List.mem_singleton.1 hl with rfl
        rfl)

/-! ### Claim C9 -/

theorem dictFind_set_self (d : Params) (k v : String) :
    dictFind (dictSet d k v) k = some v := by
  rw [dictSet]
  by_cases hd : dictHas d k
  · rw [if_pos hd]
    have hfun : ((fun p : String × String => p.1 == k) ∘
        (fun p => if p.1 == k then (k, v) else p)) = (fun p => p.1 == k) := by
      funext p
      simp only [Function.comp_apply]
      by_cases hp : (p.1 == k) = true
      · rw [if_pos hp]
        have hpk : p.1 = k := by simpa using hp
        show (k == k) = (p.1 == k)
        rw [hpk]
      · rw [if_neg hp]
    rcases hf : List.find? (fun p => p.1 == k) d with _ | e
    · exfalso
      rw [dictHas, dictFind, hf] at hd
      simp at hd
    · have hek := List.find?_some hf
      rw [dictFind, List.find?_map, hfun, hf]
      simp only [Option.map_some']
      rw [if_pos hek]
  · rw [if_neg hd, dictFind, List.find?_append]
    have hnone : List.find? (fun p => p.1 == k) d = none := by
      rcases hf : List.find? (fun p => p.1 == k) d with _ | e
      · exact hf
      · exfalso
        rw [dictHas, dictFind, hf] at hd
        simp at hd
    rw [hnone]
    simp [List.find?]

/-- C9 (confirmed): `CrossrefSearchFetcher.search_with_filters` encodes a
non-empty filters mapping as a single `filter` request parameter of
comma-joined `key:value` pairs, rendering booleans lowercase
(`str(value).lower()`), and that computed value overwrites any `filter`
entry the caller passed in `**kwargs`. -/
theorem search_with_filters_encoding
    (filters : List (String × FilterVal)) (kwargs : Params)
    (hne : filters ≠ []) :
    dictFind (crossref_search_with_filters_params filters kwargs) "filter"
      = some (crossref_filter_param filters)
  ∧ crossref_filter_param filters
      = String.intercalate ","
          (filters.map (fun p => p.1 ++ ":" ++ renderFilterVal p.2))
  ∧ renderFilterVal (.boolean true) = "true"
  ∧ renderFilterVal (.boolean false) = "false" := by
  refine ⟨?_, rfl, rfl, rfl⟩
  rw [crossref_search_with_filters_params]
  rw [if_neg]
  · exact dictFind_set_self kwargs "filter" _
  · simpa [List.isEmpty_iff] using hne

/-- C9 witness: two filters (a boolean and a string) against kwargs that
already carry a stale `filter` value: the encoded comma-joined pair list
replaces it. -/
theorem search_with_filters_encoding_witness :
    dictFind (crossref_search_with_filters_params
        [("has-abstract", .boolean true), ("type", .string "journal-article")]
        [("rows", "50"), ("filter", "old")]) "filter"
      = some (crossref_filter_param
          [("has-abstract", .boolean true), ("type", .string "journal-article")])
  ∧ crossref_filter_param
        [("has-abstract", .boolean true), ("type", .string "journal-article")]
      = String.intercalate ","
          ([("has-abstract", FilterVal.boolean true),
            ("type", FilterVal.string "journal-article")].map
            (fun p => p.1 ++ ":" ++ renderFilterVal p.2))
  ∧ renderFilterVal (.boolean true) = "true"
  ∧ renderFilterVal (.boolean false) = "false" :=
  search_with_filters_encoding
    [("has-abstract", .boolean true), ("type", .string "journal-article")]
    [("rows", "50"), ("filter", "old")] (by simp)

/-! ### Claim C10 -/

theorem load_step_ret_some {f : FileStatus} {e : String}
    (hs : crossref_load_email_step f = .ret (some e)) :
    emailFieldOf f = some e ∧ strContainsChar e '@' = true := by
  cases f with
  | absent => cases hs
  | readError => cases hs
  | parsed v =>
    cases v with
    | null => cases hs
    | bool b => cases hs
    | num n => cases hs
    | str s2 => cases hs
    | arr xs => cases hs
    | obj kvs =>
      rw [crossref_load_email_step] at hs
      rw [emailFieldOf]
      rcases hm : crossref_email_field kvs with _ | b | n | s | xs | kvs2 <;>
        rw [hm] at hs <;> dsimp only at hs ⊢
      case str =>
        by_cases hcond : (s != "" && strContainsChar s '@') = true
        · rw [if_pos hcond] at hs
          rw [if_pos hcond]
          have hse : s = e := by
            cases hs
            rfl
          subst hse
          refine ⟨rfl, ?_⟩
          rw [Bool.and_eq_true] at hcond
          exact hcond.2
        · rw [if_neg hcond] at hs
          by_cases hemp : s = ""
          · rw [if_pos hemp] at hs
            cases hs
          · rw [if_neg hemp] at hs
            cases hs
      all_goals cases hs

theorem load_step_of_field_none {f : FileStatus}
    (hf : emailFieldOf f = none) :
    crossref_load_email_step f = .ret none ∨ crossref_load_email_step f = .next := by
  cases f with
  | absent => exact Or.inr rfl
  | readError => exact Or.inr rfl
  | parsed v =>
    cases v with
    | null => exact Or.inl rfl
    | bool b => exact Or.inr rfl
    | num n => exact Or.inr rfl
    | str s2 => exact Or.inr rfl
    | arr xs => exact Or.inr rfl
    | obj kvs =>
      rw [emailFieldOf] at hf
      rw [crossref_load_email_step]
      rcases hm : crossref_email_field kvs with _ | b | n | s | xs | kvs2 <;>
        rw [hm] at hf <;> dsimp only at hf ⊢
      case null => exact Or.inl rfl
      case bool => exact Or.inr rfl
      case num => exact Or.inr rfl
      case arr => exact Or.inr rfl
      case obj => exact Or.inr rfl
      case str =>
        by_cases hcond : (s != "" && strContainsChar s '@') = true
        · rw [if_pos hcond] at hf
          cases hf
        · rw [if_neg hcond]
          by_cases hemp : s = ""
          · rw [if_pos hemp]
            exact Or.inl rfl
          · rw [if_neg hemp]
            exact Or.inr rfl

/-- C10 (confirmed): `CrossrefSearchFetcher._load_email` returns an email
only when one of the probed config files' `mailto`-or-`email` field is a
non-empty string containing `@`; in every other situation — no file
found, an empty file, a read/parse error (caught by the blanket
`except`), a non-string field, a string without `@` — it returns `None`,
so construction proceeds on the public pool.  (The embedding is total:
every exception path inside the loop is caught.) -/
theorem crossref_load_email_spec :
    (∀ (f1 f2 : FileStatus) (e : String),
      crossref_load_email f1 f2 = some e →
      strContainsChar e '@' = true ∧
      (emailFieldOf f1 = some e ∨ emailFieldOf f2 = some e))
  ∧ (∀ f1 f2 : FileStatus,
      emailFieldOf f1 = none → emailFieldOf f2 = none →
      crossref_load_email f1 f2 = none)
  ∧ crossref_load_email .absent .absent = none := by
  refine ⟨?_, ?_, rfl⟩
  · intro f1 f2 e h
    rw [crossref_load_email] at h
    rcases hs1 : crossref_load_email_step f1 with r1 | _ <;> rw [hs1] at h <;>
      dsimp only at h
    · subst h
      obtain ⟨hf, hc⟩ := load_step_ret_some hs1
      exact ⟨hc, Or.inl hf⟩
    · rcases hs2 : crossref_load_email_step f2 with r2 | _ <;> rw [hs2] at h <;>
        dsimp only at h
      · subst h
        obtain ⟨hf, hc⟩ := load_step_ret_some hs2
        exact ⟨hc, Or.inr hf⟩
      · cases h
  · intro f1 f2 h1 h2
    rw [crossref_load_email]
    rcases load_step_of_field_none h1 with hs1 | hs1
    · rw [hs1]
    · rw [hs1]
      rcases load_step_of_field_none h2 with hs2 | hs2
      · rw [hs2]
      · rw [hs2]

/-- C10 witness: a mailto field carrying `a@b.c` in the first file is
returned (satisfying the only-when direction), and the enumerated
none-situations — second path absent, unreadable file, empty file,
non-string field, string without `@` — all yield `None`. -/
theorem crossref_load_email_spec_witness :
    strContainsChar "a@b.c" '@' = true ∧
      (emailFieldOf (.parsed (.obj [("mailto", .str "a@b.c")])) = some "a@b.c" ∨
        emailFieldOf .absent = some "a@b.c") ∧
    crossref_load_email .readError (.parsed (.obj [("mailto", .str "no-at")])) = none ∧
    crossref_load_email (.parsed .null) (.parsed (.obj [("email", .num 5)])) = none := by
  refine ⟨?_, ?_, ?_, ?_⟩
  · exact (crossref_load_email_spec.1 (.parsed (.obj [("mailto", .str "a@b.c")]))
      .absent "a@b.c" rfl).1
  · exact (crossref_load_email_spec.1 (.parsed (.obj [("mailto", .str "a@b.c")]))
      .absent "a@b.c" rfl).2
  · exact crossref_load_email_spec.2.1 .readError
      (.parsed (.obj [("mailto", .str "no-at")])) rfl rfl
  · exact crossref_load_email_spec.2.1 (.parsed .null)
      (.parsed (.obj [("email", .num 5)])) rfl rfl

end ApiClients